import Mathlib

/-!
Verification of the `env` package: decoding environment-variable strings into
typed struct fields.  The definitions below are a shallow embedding of the
Go source (`Unmarshal`, `decode`, `decodeStruct`, `readTag`,
`toScreamingSnake`, `decodeValue`, `deref`, `timeLayouts`, and the error
types of `errors.go`), together with models of the Go standard-library
functions they call (`strings.Split`, `strconv.ParseInt`, `strconv.ParseUint`,
`strconv.ParseBool`, `time.ParseDuration`, `time.Parse`).
-/

namespace GoEnv

/-! ## Model of `strings.Split` -/

/-- Removes `pre` from the front of `l`, if it is there. -/
def dropLeading : List Char → List Char → Option (List Char)
  | l, [] => some l
  | [], _ :: _ => none
  | c :: cs, p :: ps => if c = p then dropLeading cs ps else none

/-- One pass of `strings.Split` for a non-empty separator: scan `l`,
cutting at each non-overlapping occurrence of `sep`.  `fuel` bounds the
recursion (any `fuel > l.length` is enough). -/
def splitChars (sep : List Char) : Nat → List Char → List Char → List (List Char)
  | _, acc, [] => [acc.reverse]
  | 0, acc, rest => [acc.reverse ++ rest]
  | fuel + 1, acc, c :: cs =>
    match dropLeading (c :: cs) sep with
    | some rest => acc.reverse :: splitChars sep fuel [] rest
    | none => splitChars sep fuel (c :: acc) cs

/-- Model of Go `strings.Split(s, sep)`.  An empty separator splits the
string into its individual characters (Go's `explode`); otherwise the
string is cut at each occurrence of `sep`, used as a literal substring. -/
def goSplit (s sep : String) : List String :=
  if sep = "" then s.toList.map (fun c => String.mk [c])
  else (splitChars sep.toList (s.toList.length + 1) [] s.toList).map (fun l => String.mk l)

/-! ## Model of `strconv.ParseUint` / `strconv.ParseInt` (base 0) -/

/-- The two error kinds of a `strconv.NumError`. -/
inductive NumErrKind where
  | syntaxErr
  | rangeErr
  deriving DecidableEq, Repr

def isDigit (c : Char) : Bool := '0' ≤ c && c ≤ '9'

def lowerAscii (c : Char) : Char :=
  if 'A' ≤ c && c ≤ 'Z' then Char.ofNat (c.toNat + 32) else c

def hexDigitVal (c : Char) : Option Nat :=
  if isDigit c then some (c.toNat - '0'.toNat)
  else
    let lc := lowerAscii c
    if 'a' ≤ lc && lc ≤ 'z' then some (lc.toNat - 'a'.toNat + 10) else none

/-- Go `strconv`'s `underscoreOK`: underscores may appear only between
digits, or between a base prefix and a digit.  `saw` tracks the class of
the previous character: `'^'` start, `'0'` digit or base prefix, `'_'`
underscore, `'!'` anything else. -/
def underscoreLoop (hex : Bool) : Char → List Char → Bool
  | saw, [] => saw ≠ '_'
  | saw, c :: cs =>
    if isDigit c || (hex && (hexDigitVal c).isSome && (hexDigitVal c).getD 0 < 16) then
      underscoreLoop hex '0' cs
    else if c = '_' then
      if saw ≠ '0' then false else underscoreLoop hex '_' cs
    else if saw = '_' then false
    else underscoreLoop hex '!' cs

def underscoreOK (s : List Char) : Bool :=
  let s1 := match s with
    | '-' :: rest => rest
    | '+' :: rest => rest
    | rest => rest
  match s1 with
  | '0' :: b :: rest =>
    if (lowerAscii b = 'b' || lowerAscii b = 'o' || lowerAscii b = 'x') && rest ≠ [] then
      underscoreLoop (lowerAscii b = 'x') '0' rest
    else underscoreLoop false '^' s1
  | _ => underscoreLoop false '^' s1

/-- Digit loop of Go `strconv.ParseUint`: accumulate `n` in the given
base, rejecting bad digits and stopping with a range error as soon as the
value exceeds `maxVal` (as Go does with its cutoff check). -/
def parseUintLoop (base maxVal : Nat) (base0 : Bool) : List Char → Nat → Except NumErrKind Nat
  | [], n => .ok n
  | c :: cs, n =>
    if c = '_' && base0 then parseUintLoop base maxVal base0 cs n
    else
      match hexDigitVal c with
      | none => .error .syntaxErr
      | some d =>
        if d ≥ base then .error .syntaxErr
        else if n * base + d > maxVal then .error .rangeErr
        else parseUintLoop base maxVal base0 cs (n * base + d)

/-- Model of Go `strconv.ParseUint(s, base, bitSize)` restricted to the
two call shapes the package uses (`base = 0` or `base = 10`).  A
`bitSize` of 0 means the platform `uint` size (64). -/
def goParseUint (s : String) (base bitSize : Nat) : Except NumErrKind Nat :=
  let bs := if bitSize = 0 then 64 else bitSize
  let maxVal := 2 ^ bs - 1
  let l := s.toList
  match l with
  | [] => .error .syntaxErr
  | _ =>
    let base0 := base = 0
    let (b, digits) :=
      if base ≠ 0 then (base, l)
      else
        match l with
        | '0' :: c :: rest =>
          if lowerAscii c = 'b' && rest ≠ [] then (2, rest)
          else if lowerAscii c = 'o' && rest ≠ [] then (8, rest)
          else if lowerAscii c = 'x' && rest ≠ [] then (16, rest)
          else (8, c :: rest)
        | _ => (10, l)
    if digits = [] then .error .syntaxErr
    else if base0 && l.contains '_' && !underscoreOK l then .error .syntaxErr
    else parseUintLoop b maxVal base0 digits 0

/-- Model of Go `strconv.ParseInt(s, base, bitSize)`.  A `bitSize` of 0
means the platform `int` size (64). -/
def goParseInt (s : String) (base bitSize : Nat) : Except NumErrKind Int :=
  let bs := if bitSize = 0 then 64 else bitSize
  match s.toList with
  | [] => .error .syntaxErr
  | c :: rest =>
    let (neg, digits) :=
      if c = '-' then (true, rest)
      else if c = '+' then (false, rest)
      else (false, c :: rest)
    match goParseUint (String.mk digits) base 64 with
    | .error e => .error e
    | .ok un =>
      let cutoff := 2 ^ (bs - 1)
      if !neg && un ≥ cutoff then .error .rangeErr
      else if neg && un > cutoff then .error .rangeErr
      else .ok (if neg then -(un : Int) else (un : Int))

/-! ## Model of `strconv.ParseBool` -/

/-- Model of Go `strconv.ParseBool`. -/
def goParseBool (s : String) : Except NumErrKind Bool :=
  if s = "1" || s = "t" || s = "T" || s = "true" || s = "TRUE" || s = "True" then .ok true
  else if s = "0" || s = "f" || s = "F" || s = "false" || s = "FALSE" || s = "False" then .ok false
  else .error .syntaxErr

/-! ## Model of `time.ParseDuration` -/

/-- Longest unit name recognized by `time.ParseDuration` at the front of
the list, with its scale in nanoseconds. -/
def durUnit : List Char → Option (Nat × List Char)
  | 'n' :: 's' :: r => some (1, r)
  | 'u' :: 's' :: r => some (1000, r)
  | 'µ' :: 's' :: r => some (1000, r)
  | 'μ' :: 's' :: r => some (1000, r)
  | 'm' :: 's' :: r => some (1000000, r)
  | 's' :: r => some (1000000000, r)
  | 'm' :: r => some (60000000000, r)
  | 'h' :: r => some (3600000000000, r)
  | _ => none

def takeDigitRun : List Char → (List Nat × List Char)
  | [] => ([], [])
  | c :: cs =>
    if isDigit c then
      let (ds, rest) := takeDigitRun cs
      ((c.toNat - '0'.toNat) :: ds, rest)
    else ([], c :: cs)

def digitsToNat (ds : List Nat) : Nat := ds.foldl (fun n d => n * 10 + d) 0

/-- One `number [fraction] unit` group of a duration literal, returning
the value in nanoseconds (fractional part computed exactly and truncated,
which agrees with Go on every representable input of this package). -/
def durGroup (l : List Char) : Option (Nat × List Char) :=
  let (intDs, r1) := takeDigitRun l
  let (fracDs, r2) :=
    match r1 with
    | '.' :: r => takeDigitRun r
    | _ => ([], r1)
  if intDs = [] && fracDs = [] then none
  else
    match durUnit r2 with
    | none => none
    | some (scale, r3) =>
      some (digitsToNat intDs * scale + digitsToNat fracDs * scale / 10 ^ fracDs.length, r3)

def durGroups : Nat → List Char → Nat → Option Nat
  | _, [], acc => some acc
  | 0, _, _ => none
  | fuel + 1, l, acc =>
    match durGroup l with
    | none => none
    | some (v, rest) => durGroups fuel rest (acc + v)

/-- Model of Go `time.ParseDuration`, producing nanoseconds. -/
def goParseDuration (s : String) : Option Int :=
  let l := s.toList
  let (neg, l1) :=
    match l with
    | '-' :: r => (true, r)
    | '+' :: r => (false, r)
    | r => (false, r)
  if l1 = ['0'] then some 0
  else if l1 = [] then none
  else
    match durGroups (l1.length + 1) l1 0 with
    | none => none
    | some v => some (if neg then -(v : Int) else (v : Int))

/-! ## Model of `time.Parse`

A Go time layout is a reference-time pattern.  We tokenize the layout and
then match the input against the token sequence, following the behavior
of Go's `time.Parse` on the token set that occurs in this package's
`timeLayouts` list. -/

/-- A parsed time instant: the fields Go's `time.Parse` populates, with
the zone reduced to an offset east of UTC in seconds. -/
structure GoTime where
  year : Int
  month : Nat
  day : Nat
  hour : Nat
  minute : Nat
  second : Nat
  nsec : Nat
  offset : Int
  deriving DecidableEq, Repr

/-- Layout tokens of Go's reference time that occur in `timeLayouts`. -/
inductive TimeTok where
  | lit (c : Char)
  | year4        -- "2006"
  | year2        -- "06"
  | month2       -- "01"
  | monthName    -- "Jan"
  | dayName      -- "Mon"
  | dayNameLong  -- "Monday"
  | day2         -- "02"
  | dayUnder     -- "_2"
  | hour24       -- "15"
  | hour12z      -- "03"
  | hour12       -- "3"
  | minute2      -- "04"
  | second2      -- "05"
  | pmUpper      -- "PM"
  | fracFixed (digits : Nat)  -- ".000", ".000000", ".000000000"
  | fracOpt                   -- ".999999999"
  | zoneAbbr     -- "MST"
  | zoneNum      -- "-0700"
  | zoneISO      -- "Z07:00"
  deriving DecidableEq, Repr

/-- Recognize the next layout token (Go's `nextStdChunk`, restricted to
the chunks appearing in `timeLayouts`). -/
def tokStep (l : List Char) : Option (TimeTok × List Char) :=
  match dropLeading l "2006".toList with
  | some r => some (.year4, r)
  | none =>
  match dropLeading l "15".toList with
  | some r => some (.hour24, r)
  | none =>
  match dropLeading l "Monday".toList with
  | some r => some (.dayNameLong, r)
  | none =>
  match dropLeading l "Mon".toList with
  | some r => some (.dayName, r)
  | none =>
  match dropLeading l "Jan".toList with
  | some r => some (.monthName, r)
  | none =>
  match dropLeading l "PM".toList with
  | some r => some (.pmUpper, r)
  | none =>
  match dropLeading l "MST".toList with
  | some r => some (.zoneAbbr, r)
  | none =>
  match dropLeading l "Z07:00".toList with
  | some r => some (.zoneISO, r)
  | none =>
  match dropLeading l "-0700".toList with
  | some r => some (.zoneNum, r)
  | none =>
  match dropLeading l "01".toList with
  | some r => some (.month2, r)
  | none =>
  match dropLeading l "02".toList with
  | some r => some (.day2, r)
  | none =>
  match dropLeading l "03".toList with
  | some r => some (.hour12z, r)
  | none =>
  match dropLeading l "04".toList with
  | some r => some (.minute2, r)
  | none =>
  match dropLeading l "05".toList with
  | some r => some (.second2, r)
  | none =>
  match dropLeading l "06".toList with
  | some r => some (.year2, r)
  | none =>
  match dropLeading l "_2".toList with
  | some r => some (.dayUnder, r)
  | none =>
  match dropLeading l ".000000000".toList with
  | some r => some (.fracFixed 9, r)
  | none =>
  match dropLeading l ".000000".toList with
  | some r => some (.fracFixed 6, r)
  | none =>
  match dropLeading l ".000".toList with
  | some r => some (.fracFixed 3, r)
  | none =>
  match dropLeading l ".999999999".toList with
  | some r => some (.fracOpt, r)
  | none =>
  match dropLeading l "3".toList with
  | some r => some (.hour12, r)
  | none =>
  match l with
  | c :: rest => some (.lit c, rest)
  | [] => none

def tokenizeLayout : Nat → List Char → List TimeTok
  | 0, _ => []
  | n + 1, l =>
    match tokStep l with
    | some (t, rest) => t :: tokenizeLayout n rest
    | none => []

/-- Exactly `n` decimal digits from the front of the input. -/
def takeFixedNum : Nat → List Char → Option (Nat × List Char)
  | 0, l => some (0, l)
  | n + 1, l =>
    match l with
    | [] => none
    | c :: cs =>
      if isDigit c then
        match takeFixedNum n cs with
        | some (m, rest) => some ((c.toNat - '0'.toNat) * 10 ^ n + m, rest)
        | none => none
      else none

/-- Go's `getnum` with `fixed = false`: one digit, or two if the second
character is also a digit. -/
def takeNum : List Char → Option (Nat × List Char)
  | [] => none
  | c :: cs =>
    if isDigit c then
      match cs with
      | c2 :: cs2 =>
        if isDigit c2 then some ((c.toNat - '0'.toNat) * 10 + (c2.toNat - '0'.toNat), cs2)
        else some (c.toNat - '0'.toNat, cs)
      | [] => some (c.toNat - '0'.toNat, [])
    else none

/-- ASCII-case-insensitive match of `name` at the front of `input`. -/
def matchName : List Char → List Char → Option (List Char)
  | [], input => some input
  | _ :: _, [] => none
  | n :: ns, c :: cs => if lowerAscii n = lowerAscii c then matchName ns cs else none

def monthNames : List String :=
  ["Jan", "Feb", "Mar", "Apr", "May", "Jun", "Jul", "Aug", "Sep", "Oct", "Nov", "Dec"]

def dayNamesShort : List String :=
  ["Sun", "Mon", "Tue", "Wed", "Thu", "Fri", "Sat"]

def dayNamesLong : List String :=
  ["Sunday", "Monday", "Tuesday", "Wednesday", "Thursday", "Friday", "Saturday"]

/-- First name of the table matching the front of the input, with its
1-based index and the remaining input (Go's `lookup`). -/
def lookupName (tab : List String) (input : List Char) : Option (Nat × List Char) :=
  match tab with
  | [] => none
  | n :: rest =>
    match matchName n.toList input with
    | some r => some (1, r)
    | none =>
      match lookupName rest input with
      | some (i, r) => some (i + 1, r)
      | none => none

/-- Fractional seconds: a `.` or `,` followed by 1–9 digits, scaled to
nanoseconds. -/
def takeFrac (l : List Char) : Option (Nat × List Char) :=
  match l with
  | c :: rest =>
    if c = '.' || c = ',' then
      let (ds, r) := takeDigitRun rest
      if ds.length = 0 || ds.length > 9 then none
      else some (digitsToNat ds * 10 ^ (9 - ds.length), r)
    else none
  | [] => none

def isUpperAscii (c : Char) : Bool := 'A' ≤ c && c ≤ 'Z'

def takeUpperRun : List Char → (List Char × List Char)
  | [] => ([], [])
  | c :: cs =>
    if isUpperAscii c then
      let (run, rest) := takeUpperRun cs
      (c :: run, rest)
    else ([], c :: cs)

/-- Mutable state threaded through layout-token matching. -/
structure TimeAcc where
  year : Int := 0
  month : Nat := 1
  day : Nat := 1
  hour : Nat := 0
  minute : Nat := 0
  second : Nat := 0
  nsec : Nat := 0
  offset : Int := 0
  pm : Bool := false
  am : Bool := false
  deriving Repr

/-- Match one token against the input. -/
def runTok (t : TimeTok) (l : List Char) (acc : TimeAcc) : Option (TimeAcc × List Char) :=
  match t with
  | .lit c =>
    match l with
    | c2 :: rest => if c2 = c then some (acc, rest) else none
    | [] => none
  | .year4 =>
    match takeFixedNum 4 l with
    | some (y, r) => some ({ acc with year := (y : Int) }, r)
    | none => none
  | .year2 =>
    match takeFixedNum 2 l with
    | some (y, r) => some ({ acc with year := if y ≥ 69 then (1900 + y : Int) else (2000 + y : Int) }, r)
    | none => none
  | .month2 =>
    match takeFixedNum 2 l with
    | some (m, r) => some ({ acc with month := m }, r)
    | none => none
  | .monthName =>
    match lookupName monthNames l with
    | some (m, r) => some ({ acc with month := m }, r)
    | none => none
  | .dayName =>
    match lookupName dayNamesShort l with
    | some (_, r) => some (acc, r)
    | none => none
  | .dayNameLong =>
    match lookupName dayNamesLong l with
    | some (_, r) => some (acc, r)
    | none => none
  | .day2 =>
    match takeFixedNum 2 l with
    | some (d, r) => some ({ acc with day := d }, r)
    | none => none
  | .dayUnder =>
    let l1 := match l with
      | ' ' :: rest => rest
      | rest => rest
    match takeNum l1 with
    | some (d, r) => some ({ acc with day := d }, r)
    | none => none
  | .hour24 =>
    match takeNum l with
    | some (h, r) => if h < 24 then some ({ acc with hour := h }, r) else none
    | none => none
  | .hour12z =>
    match takeFixedNum 2 l with
    | some (h, r) => if h ≤ 12 then some ({ acc with hour := h }, r) else none
    | none => none
  | .hour12 =>
    match takeNum l with
    | some (h, r) => if h ≤ 12 then some ({ acc with hour := h }, r) else none
    | none => none
  | .minute2 =>
    match takeFixedNum 2 l with
    | some (m, r) => if m < 60 then some ({ acc with minute := m }, r) else none
    | none => none
  | .second2 =>
    match takeFixedNum 2 l with
    | some (s, r) => if s < 60 then some ({ acc with second := s }, r) else none
    | none => none
  | .pmUpper =>
    match l with
    | 'P' :: 'M' :: r => some ({ acc with pm := true }, r)
    | 'A' :: 'M' :: r => some ({ acc with am := true }, r)
    | _ => none
  | .fracFixed n =>
    match l with
    | c :: rest =>
      if c = '.' || c = ',' then
        match takeFixedNum n rest with
        | some (v, r) => some ({ acc with nsec := v * 10 ^ (9 - n) }, r)
        | none => none
      else none
    | [] => none
  | .fracOpt =>
    match takeFrac l with
    | some (v, r) => some ({ acc with nsec := v }, r)
    | none => some (acc, l)
  | .zoneAbbr =>
    let (run, rest) := takeUpperRun l
    if run.length ≥ 3 && run.length ≤ 5 then some ({ acc with offset := 0 }, rest) else none
  | .zoneNum =>
    match l with
    | c :: rest =>
      if c = '+' || c = '-' then
        match takeFixedNum 2 rest with
        | some (hh, r1) =>
          match takeFixedNum 2 r1 with
          | some (mm, r2) =>
            if mm < 60 then
              let v : Int := hh * 3600 + mm * 60
              some ({ acc with offset := if c = '-' then -v else v }, r2)
            else none
          | none => none
        | none => none
      else none
    | [] => none
  | .zoneISO =>
    match l with
    | 'Z' :: rest => some ({ acc with offset := 0 }, rest)
    | c :: rest =>
      if c = '+' || c = '-' then
        match takeFixedNum 2 rest with
        | some (hh, r1) =>
          match r1 with
          | ':' :: r1b =>
            match takeFixedNum 2 r1b with
            | some (mm, r2) =>
              if mm < 60 then
                let v : Int := hh * 3600 + mm * 60
                some ({ acc with offset := if c = '-' then -v else v }, r2)
              else none
            | none => none
          | _ => none
        | none => none
      else none
    | [] => none

/-- Run the token list over the input.  After a seconds token, Go also
accepts an unsolicited fractional second when the layout does not itself
continue with a fraction token. -/
def runToks : List TimeTok → List Char → TimeAcc → Option (TimeAcc × List Char)
  | [], l, acc => some (acc, l)
  | t :: ts, l, acc =>
    match runTok t l acc with
    | none => none
    | some (acc1, r) =>
      match t with
      | .second2 =>
        match ts with
        | .fracFixed _ :: _ => runToks ts r acc1
        | .fracOpt :: _ => runToks ts r acc1
        | _ =>
          match takeFrac r with
          | some (v, r2) => runToks ts r2 { acc1 with nsec := v }
          | none => runToks ts r acc1
      | _ => runToks ts r acc1

def isLeapYear (y : Int) : Bool := y % 4 = 0 && (y % 100 ≠ 0 || y % 400 = 0)

def daysIn (month : Nat) (year : Int) : Nat :=
  if month = 2 then (if isLeapYear year then 29 else 28)
  else if month = 4 || month = 6 || month = 9 || month = 11 then 30
  else 31

/-- Model of Go `time.Parse(layout, value)`: tokenises the layout,
matches the whole input against it, validates ranges and applies the
12-hour clock adjustment.  Returns `none` on any parse error. -/
def goTimeParse (layout value : String) : Option GoTime :=
  let toks := tokenizeLayout (layout.toList.length + 1) layout.toList
  match runToks toks value.toList {} with
  | none => none
  | some (acc, rest) =>
    if rest ≠ [] then none
    else if acc.month < 1 || acc.month > 12 then none
    else if acc.day < 1 || acc.day > daysIn acc.month acc.year then none
    else
      let hour :=
        if acc.pm && acc.hour < 12 then acc.hour + 12
        else if acc.am && acc.hour = 12 then 0
        else acc.hour
      some { year := acc.year, month := acc.month, day := acc.day, hour := hour,
             minute := acc.minute, second := acc.second, nsec := acc.nsec,
             offset := acc.offset }

/-! ## The data model of the decoder

Go types supported by `decodeValue`, as an inductive type descriptor.
Custom (user-named) types carrying an `UnmarshalEnv` and/or
`UnmarshalText` method are modelled with their underlying kind fixed to
the platform `int`, matching the `Custom`/`CustomText` types of the
package's tests; their decoder behavior is defunctionalized in
`CustomDec`. -/

/-- Defunctionalized behaviors of a user-written `UnmarshalEnv` /
`UnmarshalText` method on an integer-kinded named type.  `runDec` gives
each one its meaning. -/
inductive CustomDec where
  | parseIntDec                 -- the tests' method: ParseInt(s, 10, 0), writing even on error
  | constDec (n : Int)          -- always succeeds and writes n
  | acceptOnly (w : String) (n : Int)  -- succeeds (writing n) only on the exact string w
  deriving DecidableEq, Repr

inductive Ty where
  | str
  | int (bits : Nat)    -- 0 = platform int; 8, 16, 32, 64 otherwise
  | uint (bits : Nat)
  | boolTy
  | duration            -- time.Duration (exact type identity)
  | timeTy              -- time.Time (exact type identity)
  | custom (unm : Option CustomDec) (txt : Option CustomDec)
  | ptr (elem : Ty)
  | slice (elem : Ty)
  deriving DecidableEq, Repr

inductive Val where
  | vstr (s : String)
  | vint (n : Int)      -- value of signed-integer-kinded slots, including custom types
  | vuint (n : Nat)
  | vbool (b : Bool)
  | vdur (nanos : Int)
  | vtime (t : GoTime)
  | vptr (p : Option Val)
  | vslice (elems : List Val)
  deriving Repr

/-- The underlying cause recorded in a `ParseError`'s `Err` field when it
comes from the standard library or user code. -/
inductive BaseErr where
  | num (fn : String) (num : String) (kind : NumErrKind)  -- strconv.NumError
  | timeParse (layout value : String)                     -- time.ParseError
  | durationParse (value : String)                        -- time.ParseDuration error
  | customErr (msg : String)                              -- error from a user Unmarshal method
  deriving DecidableEq, Repr

/-- The errors produced by the package (`errors.go` plus the two
`fmt.Errorf` cases of `env.go`). -/
inductive GoErr where
  | invalidTagOption (key opt : String) (ty : Ty) (fieldName : Option String)
  | invalidType (key : String) (ty : Ty) (fieldName : Option String)
  | invalidTopType        -- InvalidTypeError{Type: rt} from decodeStruct on a non-struct
  | expectedPointer       -- "env: expected pointer, got ..."
  | nilPointer            -- "env: cannot unmarshal into nil pointer"
  | cannotSet (name : String)  -- "env: cannot set field '...'"
  | requirement (key : String) (ty : Ty)
  | parseError (key value : String) (ty : Ty) (cause : GoErr)
  | base (b : BaseErr)
  deriving DecidableEq, Repr

/-- The meaning of a defunctionalized custom decoder: given the raw
string and the current leaf value, produce the new leaf value and an
optional error message (the receiver may be written even on error, as in
the tests' `Custom` type). -/
def runDec : CustomDec → String → Val → Val × Option String
  | .parseIntDec, s, _ =>
    match goParseInt s 10 0 with
    | .ok n => (.vint n, none)
    | .error _ => (.vint 0, some "parse failure")
  | .constDec n, _, _ => (.vint n, none)
  | .acceptOnly w n, s, v =>
    if s = w then (.vint n, none) else (v, some "unexpected value")

/-! ## Tag reading (`readTag`, `toScreamingSnake`) -/

/-- `tagOptions` from `env.go`. -/
structure TagOptions where
  key : String
  value : String
  set : Bool
  required : Bool
  sep : String
  deriving DecidableEq, Repr

/-- A struct field as the walker sees it: name, declared `env` tag (if
any), type, and whether the field is exported (i.e. whether
`reflect.Value.CanSet` holds for its slot). -/
structure GoField where
  name : String
  tag : Option String
  ty : Ty
  exported : Bool
  deriving DecidableEq, Repr

/-- A lookup source: Go's `func(key string) (string, bool)`. -/
def Lookup : Type := String → Option String

/-- The body of `toScreamingSnake`'s loop: `prevLower` starts `false`;
an underscore is written before an uppercase rune whenever the previous
rune was lowercase. -/
def snakeLoop : Bool → List Char → List Char
  | _, [] => []
  | prevLower, c :: rest =>
    (if prevLower && c.isUpper then ['_', c] else [c]) ++ snakeLoop c.isLower rest

/-- `toScreamingSnake` from `env.go` (case classification and uppercasing
modelled on ASCII). -/
def toScreamingSnake (s : String) : String :=
  String.mk ((snakeLoop false s.toList).map Char.toUpper)

/-- `strings.CutPrefix(part, "sep=")`. -/
def cutSep (p : String) : Option String :=
  match p.toList with
  | 's' :: 'e' :: 'p' :: '=' :: rest => some (String.mk rest)
  | _ => none

/-- The option-token loop of `readTag`: `required` and `sep=<literal>`
are recognized; any other token is an `InvalidTagOptionError`. -/
def parseOptParts (key : String) (f : GoField) : List String → TagOptions → Except GoErr TagOptions
  | [], t => .ok t
  | p :: rest, t =>
    if p = "required" then parseOptParts key f rest { t with required := true }
    else
      match cutSep p with
      | some sf => parseOptParts key f rest { t with sep := sf }
      | none => .error (.invalidTagOption key p f.ty (some f.name))

/-- `readTag` from `env.go`: derive the tag string (declared, or the
screaming-snake of the field name), split on commas, look the key up
once, apply the caller-supplied option mutators, then parse the tag's
option tokens on top. -/
def readTag (lk : Lookup) (f : GoField) (opts : List (TagOptions → TagOptions)) :
    Except GoErr TagOptions :=
  let tagStr := f.tag.getD (toScreamingSnake f.name)
  let parts := goSplit tagStr ","
  let key := parts.headD ""
  let r := lk key
  let t0 : TagOptions :=
    { key := key, value := r.getD "", set := r.isSome, required := false, sep := "," }
  parseOptParts key f (parts.drop 1) (opts.foldl (fun t g => g t) t0)

/-! ## `decodeValue` -/

/-- `timeLayouts` from `env.go`: the exact ordered list the time branch
tries. -/
def timeLayouts : List String :=
  ["01/02 03:04:05PM '06 -0700",      -- time.Layout
   "Mon Jan _2 15:04:05 2006",        -- time.ANSIC
   "Mon Jan _2 15:04:05 MST 2006",    -- time.UnixDate
   "Mon Jan 02 15:04:05 -0700 2006",  -- time.RubyDate
   "02 Jan 06 15:04 MST",             -- time.RFC822
   "02 Jan 06 15:04 -0700",           -- time.RFC822Z
   "Monday, 02-Jan-06 15:04:05 MST",  -- time.RFC850
   "Mon, 02 Jan 2006 15:04:05 MST",   -- time.RFC1123
   "Mon, 02 Jan 2006 15:04:05 -0700", -- time.RFC1123Z
   "2006-01-02T15:04:05Z07:00",       -- time.RFC3339
   "2006-01-02T15:04:05.999999999Z07:00", -- time.RFC3339Nano
   "Jan _2 15:04:05",                 -- time.Stamp
   "Jan _2 15:04:05.000",             -- time.StampMilli
   "Jan _2 15:04:05.000000",          -- time.StampMicro
   "Jan _2 15:04:05.000000000",       -- time.StampNano
   "2006-01-02 15:04:05",             -- time.DateTime
   "2006-01-02",                      -- time.DateOnly
   "15:04:05",                        -- time.TimeOnly
   "3:04PM"]                          -- time.Kitchen

/-- The RFC-3339 layout, which is also what `time.Time.UnmarshalText`
parses with. -/
def rfc3339 : String := "2006-01-02T15:04:05Z07:00"

/-- `bitness` from `env.go`, as the `bitSize` handed to strconv (`Int` /
`Uint` give 0, meaning the platform size). -/
def bitness : Ty → Nat
  | .int b => b
  | .uint b => b
  | _ => 0

/-- The zero value `reflect.New` produces for each type. -/
def zeroVal : Ty → Val
  | .str => .vstr ""
  | .int _ => .vint 0
  | .uint _ => .vuint 0
  | .boolTy => .vbool false
  | .duration => .vdur 0
  | .timeTy => .vtime { year := 1, month := 1, day := 1, hour := 0, minute := 0,
                        second := 0, nsec := 0, offset := 0 }
  | .custom _ _ => .vint 0
  | .ptr _ => .vptr none
  | .slice _ => .vslice []

/-- The leaf type after `deref` follows every pointer layer. -/
def derefLeafTy : Ty → Ty
  | .ptr t => derefLeafTy t
  | t => t

/-- The leaf value after `deref`: each nil pointer level is replaced by a
freshly allocated zero value of the element type. -/
def derefLeafVal : Ty → Val → Val
  | .ptr t, .vptr (some w) => derefLeafVal t w
  | .ptr t, _ => derefLeafVal t (zeroVal t)
  | _, v => v

/-- Rebuild the slot's pointer chain around a (possibly updated) leaf
value: every level is allocated, as `deref` leaves it. -/
def wrapPtrChain : Ty → Val → Val
  | .ptr t, v => .vptr (some (wrapPtrChain t v))
  | _, v => v

/-- The `timeLayouts` loop of `decodeValue`: first successful layout
wins; if every layout fails, the last layout's error is kept. -/
def parseTimeLoop (layouts : List String) (value : String) (leaf : Val) :
    Val × Option BaseErr :=
  match layouts with
  | [] => (leaf, none)
  | [l] =>
    match goTimeParse l value with
    | some t => (.vtime t, none)
    | none => (leaf, some (.timeParse l value))
  | l :: rest =>
    match goTimeParse l value with
    | some t => (.vtime t, none)
    | none => parseTimeLoop rest value leaf

/-- The element loop of the slice branch: decode each substring in order
with the given element decoder, stopping at the first failure. -/
def decodeElemsGo (dec : String → Val × Option GoErr) :
    List String → List Val → Except GoErr (List Val)
  | [], acc => .ok acc.reverse
  | s :: rest, acc =>
    match dec s with
    | (v, none) => decodeElemsGo dec rest (v :: acc)
    | (_, some e) => .error e

/-- `decodeValue` from `env.go`, with explicit fuel for the slice
recursion (the wrapper `decodeValue` supplies enough fuel for any type,
so the 0 branch is unreachable).  The function returns the new slot value
together with an optional error: mutations the Go code performs before
failing (pointer allocation by `deref`, writes by a custom unmarshal
hook) are visible in the returned value, as they are in Go. -/
def decodeValueF : Nat → TagOptions → String → Bool → Ty → Val → Val × Option GoErr
  | 0, _, _, _, _, v => (v, none)
  | fuel + 1, tag, name, settable, ty, v =>
    match settable with
    | false => (v, some (.cannotSet name))
    | true =>
    match tag.set with
    | false =>
      match tag.required with
      | true => (v, some (.requirement tag.key ty))
      | false => (v, none)
    | true =>
      let lt := derefLeafTy ty
      let lv := derefLeafVal ty v
      let mkParse : GoErr → GoErr := fun e => .parseError tag.key tag.value lt e
      -- Unmarshaler hook (only custom types implement it); on success,
      -- control falls through to the remaining dispatch.
      let hookU : Val × Option GoErr :=
        match lt with
        | .custom (some d) _ =>
          match runDec d tag.value lv with
          | (lv1, some msg) => (lv1, some (mkParse (.base (.customErr msg))))
          | (lv1, none) => (lv1, none)
        | _ => (lv, none)
      match hookU with
      | (lv1, some e) => (wrapPtrChain ty lv1, some e)
      | (lv1, none) =>
        -- TextUnmarshaler hook: time.Time implements it (strict RFC
        -- 3339), as may a custom type; on success, control again falls
        -- through.
        let hookT : Val × Option GoErr :=
          match lt with
          | .custom _ (some d) =>
            match runDec d tag.value lv1 with
            | (lv2, some msg) => (lv2, some (mkParse (.base (.customErr msg))))
            | (lv2, none) => (lv2, none)
          | .timeTy =>
            -- (*time.Time).UnmarshalText assigns the receiver even on
            -- error: `*t, err = parseStrictRFC3339(data)` zeroes the
            -- field when parsing fails.
            match goTimeParse rfc3339 tag.value with
            | some t => (.vtime t, none)
            | none => (zeroVal .timeTy, some (mkParse (.base (.timeParse rfc3339 tag.value))))
          | _ => (lv1, none)
        match hookT with
        | (lv2, some e) => (wrapPtrChain ty lv2, some e)
        | (lv2, none) =>
          -- exact-type switch, then kind switch
          match lt with
          | .duration =>
            match goParseDuration tag.value with
            | some d => (wrapPtrChain ty (.vdur d), none)
            | none => (wrapPtrChain ty lv2, some (mkParse (.base (.durationParse tag.value))))
          | .timeTy =>
            match parseTimeLoop timeLayouts tag.value lv2 with
            | (lv3, none) => (wrapPtrChain ty lv3, none)
            | (lv3, some b) => (wrapPtrChain ty lv3, some (mkParse (.base b)))
          | .str => (wrapPtrChain ty (.vstr tag.value), none)
          | .int bits =>
            match goParseInt tag.value 0 (bitness (.int bits)) with
            | .ok n => (wrapPtrChain ty (.vint n), none)
            | .error k =>
              (wrapPtrChain ty lv2, some (mkParse (.base (.num "ParseInt" tag.value k))))
          | .uint bits =>
            match goParseUint tag.value 0 (bitness (.uint bits)) with
            | .ok n => (wrapPtrChain ty (.vuint n), none)
            | .error k =>
              (wrapPtrChain ty lv2, some (mkParse (.base (.num "ParseUint" tag.value k))))
          | .boolTy =>
            match goParseBool tag.value with
            | .ok b => (wrapPtrChain ty (.vbool b), none)
            | .error k =>
              (wrapPtrChain ty lv2, some (mkParse (.base (.num "ParseBool" tag.value k))))
          | .custom _ _ =>
            -- kind dispatch on the underlying kind (platform int)
            match goParseInt tag.value 0 0 with
            | .ok n => (wrapPtrChain ty (.vint n), none)
            | .error k =>
              (wrapPtrChain ty lv2, some (mkParse (.base (.num "ParseInt" tag.value k))))
          | .slice ety =>
            let entries := goSplit tag.value tag.sep
            match decodeElemsGo
                (fun s => decodeValueF fuel { tag with value := s } name true ety (zeroVal ety))
                entries [] with
            | .ok elems => (wrapPtrChain ty (.vslice elems), none)
            | .error e => (wrapPtrChain ty lv2, some (mkParse e))
          | .ptr _ => (wrapPtrChain ty lv2, some (.invalidType tag.key lt (some name)))

/-- Fuel needed by `decodeValueF`: one unit per slice nesting level. -/
def tySize : Ty → Nat
  | .ptr t => tySize t
  | .slice t => tySize t + 1
  | _ => 0

/-- `decodeValue` from `env.go` (see `decodeValueF`). -/
def decodeValue (tag : TagOptions) (name : String) (settable : Bool) (ty : Ty) (v : Val) :
    Val × Option GoErr :=
  decodeValueF (tySize ty + 1) tag name settable ty v

/-! ## The struct walker (`decodeStruct`, `decode`, `Unmarshal`) -/

/-- One field of the walk: `readTag` then `decodeValue`.  The slot's
`CanSet` is determined by the field's exportedness. -/
def fieldStep (lk : Lookup) (opts : List (TagOptions → TagOptions)) (fv : GoField × Val) :
    Val × Option GoErr :=
  match readTag lk fv.1 opts with
  | .error e => (fv.2, some e)
  | .ok tag => decodeValue tag fv.1.name fv.1.exported fv.1.ty fv.2

/-- The field loop of `decodeStruct`: fields in declaration order, first
error aborts, already-decoded slots keep their new values, later slots
are untouched. -/
def decodeStructFields (lk : Lookup) (opts : List (TagOptions → TagOptions)) :
    List (GoField × Val) → List Val × Option GoErr
  | [] => ([], none)
  | fv :: rest =>
    match fieldStep lk opts fv with
    | (v1, some e) => (v1 :: rest.map Prod.snd, some e)
    | (v1, none) =>
      match decodeStructFields lk opts rest with
      | (vs, e) => (v1 :: vs, e)

/-- A top-level target value handed to `decode`: a (possibly nested)
pointer, a struct, or something else entirely. -/
inductive OutVal where
  | ptrV (p : Option OutVal)
  | structV (fields : List (GoField × Val))
  | otherV
  deriving Repr

/-- The pointer-dereferencing loop of `decode`, ending at `decodeStruct`.
A nil pointer at any level is the "cannot unmarshal into nil pointer"
error; a non-struct target is an `InvalidTypeError`. -/
def decodeDeref (lk : Lookup) (opts : List (TagOptions → TagOptions)) :
    OutVal → OutVal × Option GoErr
  | .ptrV none => (.ptrV none, some .nilPointer)
  | .ptrV (some inner) =>
    match decodeDeref lk opts inner with
    | (i1, e) => (.ptrV (some i1), e)
  | .structV fs =>
    match decodeStructFields lk opts fs with
    | (vs, e) => (.structV ((fs.map Prod.fst).zip vs), e)
  | .otherV => (.otherV, some .invalidTopType)

/-- `decode` from `env.go`: requires a pointer target, then dereferences
to the struct. -/
def decode (lk : Lookup) (o : OutVal) (opts : List (TagOptions → TagOptions)) :
    OutVal × Option GoErr :=
  match o with
  | .ptrV p => decodeDeref lk opts (.ptrV p)
  | o => (o, some .expectedPointer)

/-- `Unmarshal` from `env.go`.  The `out any` argument is modelled as an
`Option OutVal`: `none` is the untyped nil interface, which short-circuits
to success before any decoding. -/
def Unmarshal (lk : Lookup) (out : Option OutVal) (opts : List (TagOptions → TagOptions)) :
    Option OutVal × Option GoErr :=
  match out with
  | none => (none, none)
  | some o =>
    match decode lk o opts with
    | (o1, e) => (some o1, e)

/-! ## Auxiliary definitions used by the statements -/

/-- The default-key algorithm exactly as the specification words it:
“insert `_` immediately before any uppercase character that is
immediately preceded by a lowercase character; uppercase the entire
result.”  Stated independently of `toScreamingSnake` so the two can be
compared. -/
def specInsert : List Char → List Char
  | a :: b :: rest =>
    if a.isLower && b.isUpper then a :: '_' :: specInsert (b :: rest)
    else a :: specInsert (b :: rest)
  | l => l

/-- The spec's default lookup key for an untagged field identifier. -/
def specDefaultKey (s : String) : String :=
  String.mk ((specInsert s.toList).map Char.toUpper)

/-- Every pointer level of the slot holds a non-nil pointer. -/
def fullyAllocated : Ty → Val → Bool
  | .ptr t, .vptr (some w) => fullyAllocated t w
  | .ptr _, _ => false
  | _, _ => true

/-- A tag option token the `readTag` loop recognizes. -/
def recognizedOpt (p : String) : Bool :=
  p == "required" || (cutSep p).isSome

/-- The sequence-decode behavior as the claim words it: split the raw
string on the separator as a literal substring, recursively decode every
substring into the element type in order (each into a fresh zero
element), and either replace the slot with the freshly built sequence or
abort at the first element failure, wrapping it as a parse error on the
outer field and leaving the slot unchanged. -/
def specSliceDecode (tag : TagOptions) (name : String) (ety : Ty) (v : Val) :
    Val × Option GoErr :=
  let results := (goSplit tag.value tag.sep).map
    (fun s => decodeValue { tag with value := s } name true ety (zeroVal ety))
  match results.findSome? (fun r => r.2) with
  | none => (.vslice (results.map Prod.fst), none)
  | some e => (v, some (.parseError tag.key tag.value (.slice ety) e))

/-! ## Theorems -/

/-- C1: evaluation of the walker at the failing input.  The struct
`{ lower int; Upper string `env:"UPPER"` }` (with `UPPER` present in the
lookup source) does not decode successfully with the unexported field
skipped: `decodeValue` hits its `CanSet` check first and the walk aborts
at the unexported field `lower` with a "cannot set field" error, leaving
the exported field `Upper` undecoded — contradicting both the claim and
the `Unmarshal` doc comment's "Unexported fields are ignored". -/
theorem c1_unexported_field_is_error :
    decodeStructFields (fun k => if k = "UPPER" then some "x" else none) []
      [(⟨"lower", none, .int 0, false⟩, .vint 0),
       (⟨"Upper", some "UPPER", .str, true⟩, .vstr "")]
      = ([.vint 0, .vstr ""], some (.cannotSet "lower")) := rfl

/-- C2: passing the nil interface (`out == nil`) to `Unmarshal` returns
`nil` error and performs no decoding, for every lookup source and every
option list. -/
theorem c2_nil_out_is_noop_success :
    ∀ (lk : Lookup) (opts : List (TagOptions → TagOptions)),
      Unmarshal lk none opts = (none, none) :=
  fun _ _ => rfl

theorem snakeLoop_eq_specInsert :
    ∀ (rest : List Char) (a : Char),
      a :: snakeLoop a.isLower rest = specInsert (a :: rest) := by
  intro rest
  induction rest with
  | nil => intro a; rfl
  | cons b rs ih =>
    intro a
    show a :: ((if a.isLower && b.isUpper then ['_', b] else [b]) ++ snakeLoop b.isLower rs)
      = specInsert (a :: b :: rs)
    rw [specInsert, ← ih b]
    by_cases h : (a.isLower && b.isUpper) = true
    · rw [if_pos h, if_pos h]; rfl
    · rw [if_neg h, if_neg h]; rfl

/-- C7: the default lookup key of an untagged field is the
lowercase-to-uppercase-transition algorithm of the spec: `specDefaultKey`
(stated from the spec's words) agrees with the source's
`toScreamingSnake` on every identifier; `AnonymousInt ↦ ANONYMOUS_INT`,
`ProjectName ↦ PROJECT_NAME`, uppercase runs trigger no insertion
(`HTTPServer ↦ HTTPSERVER`); and `readTag` uses it as the key whenever no
tag is declared. -/
theorem c7_default_key_screaming_snake :
    (∀ s : String, specDefaultKey s = toScreamingSnake s)
    ∧ toScreamingSnake "AnonymousInt" = "ANONYMOUS_INT"
    ∧ toScreamingSnake "ProjectName" = "PROJECT_NAME"
    ∧ toScreamingSnake "HTTPServer" = "HTTPSERVER"
    ∧ (∀ lk : Lookup, ∃ t, readTag lk ⟨"AnonymousInt", none, .int 0, true⟩ [] = .ok t
        ∧ t.key = "ANONYMOUS_INT") := by
  refine ⟨?_, rfl, rfl, rfl, fun lk => ⟨_, rfl, rfl⟩⟩
  intro s
  unfold specDefaultKey toScreamingSnake
  cases hl : s.toList with
  | nil => rfl
  | cons a rest =>
    have h1 : snakeLoop false (a :: rest) = a :: snakeLoop a.isLower rest := by
      show (if false && a.isUpper then ['_', a] else [a]) ++ snakeLoop a.isLower rest
        = a :: snakeLoop a.isLower rest
      rfl
    rw [h1, snakeLoop_eq_specInsert]

theorem decodeElemsGo_congr (d1 d2 : String → Val × Option GoErr) (h : ∀ s, d1 s = d2 s) :
    ∀ (entries : List String) (acc : List Val),
      decodeElemsGo d1 entries acc = decodeElemsGo d2 entries acc := by
  intro entries
  induction entries with
  | nil => intro acc; rfl
  | cons s rest ih =>
    intro acc
    simp only [decodeElemsGo, h s]
    cases hs : d2 s with
    | mk v oe =>
      cases oe with
      | none => exact ih (v :: acc)
      | some e => rfl

/-- Once the key is present in the lookup source, the result of
`decodeValue` does not depend on the `required` flag (the flag is only
consulted in the key-absent branch, and the slice recursion merely copies
it along). -/
theorem decodeValueF_required_irrel :
    ∀ (fuel : Nat) (key value sep name : String) (b1 b2 st : Bool) (ty : Ty) (v : Val),
      decodeValueF fuel ⟨key, value, true, b1, sep⟩ name st ty v
        = decodeValueF fuel ⟨key, value, true, b2, sep⟩ name st ty v := by
  intro fuel
  induction fuel with
  | zero => intro _ _ _ _ _ _ _ _ _; rfl
  | succ n ih =>
    intro key value sep name b1 b2 st ty v
    cases st with
    | false => rfl
    | true =>
      simp only [decodeValueF]
      cases hlt : derefLeafTy ty with
      | slice ety =>
        have hc := decodeElemsGo_congr
          (fun s => decodeValueF n ⟨key, s, true, b1, sep⟩ name true ety (zeroVal ety))
          (fun s => decodeValueF n ⟨key, s, true, b2, sep⟩ name true ety (zeroVal ety))
          (fun s => ih key s sep name b1 b2 true ety (zeroVal ety))
          (goSplit value sep) []
        simp only [hc]
      | _ => rfl

/-- C5: for a settable field slot, (i) an absent key with `required` set
fails with a `RequirementError` carrying the key and the (declared)
target type; (ii) an absent key without `required` leaves the slot
completely unchanged and succeeds; (iii) when the key is present the
outcome does not depend on the `required` flag at all; and (iv) a
present key on a string-typed field always decodes successfully. -/
theorem c5_required_key_semantics :
    ∀ (tag : TagOptions) (name : String) (ty : Ty) (v : Val),
      (tag.set = false → tag.required = true →
        decodeValue tag name true ty v = (v, some (.requirement tag.key ty)))
      ∧ (tag.set = false → tag.required = false →
        decodeValue tag name true ty v = (v, none))
      ∧ (∀ b : Bool, tag.set = true →
        decodeValue { tag with required := b } name true ty v = decodeValue tag name true ty v)
      ∧ (tag.set = true → decodeValue tag name true .str v = (.vstr tag.value, none)) := by
  intro tag name ty v
  obtain ⟨k, val, st, req, sp⟩ := tag
  refine ⟨?_, ?_, ?_, ?_⟩
  · intro h1 h2
    cases h1; cases h2
    rfl
  · intro h1 h2
    cases h1; cases h2
    rfl
  · intro b h1
    cases h1
    exact decodeValueF_required_irrel (tySize ty + 1) k val sp name b req true ty v
  · intro h1
    cases h1
    rfl

/-- Witness for C5 on a concrete string field with key `K`. -/
theorem c5_witness :
    decodeValue ⟨"K", "", false, true, ","⟩ "F" true .str (.vstr "old")
        = (.vstr "old", some (.requirement "K" .str))
    ∧ decodeValue ⟨"K", "", false, false, ","⟩ "F" true .str (.vstr "old") = (.vstr "old", none)
    ∧ decodeValue ⟨"K", "v", true, true, ","⟩ "F" true .str (.vstr "old")
        = decodeValue ⟨"K", "v", true, false, ","⟩ "F" true .str (.vstr "old")
    ∧ decodeValue ⟨"K", "v", true, false, ","⟩ "F" true .str (.vstr "old") = (.vstr "v", none) := by
  refine ⟨(c5_required_key_semantics ⟨"K", "", false, true, ","⟩ "F" .str (.vstr "old")).1 rfl rfl,
    (c5_required_key_semantics ⟨"K", "", false, false, ","⟩ "F" .str (.vstr "old")).2.1 rfl rfl,
    ?_,
    (c5_required_key_semantics ⟨"K", "v", true, false, ","⟩ "F" .str (.vstr "old")).2.2.2 rfl⟩
  exact (c5_required_key_semantics ⟨"K", "v", true, false, ","⟩ "F" .str (.vstr "old")).2.2.1 true rfl

/-- C6: when every field before `fv` decodes without error and `fv`
fails, the walk stops at `fv`: its error is returned verbatim, the
already-decoded fields keep their decoded values, and every field after
`fv` is left untouched. -/
theorem c6_first_error_aborts_walk :
    ∀ (lk : Lookup) (opts : List (TagOptions → TagOptions))
      (pre : List (GoField × Val)) (fv : GoField × Val) (post : List (GoField × Val)) (e : GoErr),
      (∀ x ∈ pre, (fieldStep lk opts x).2 = none) →
      (fieldStep lk opts fv).2 = some e →
      decodeStructFields lk opts (pre ++ fv :: post)
        = (pre.map (fun x => (fieldStep lk opts x).1)
            ++ (fieldStep lk opts fv).1 :: post.map Prod.snd, some e) := by
  intro lk opts pre
  induction pre with
  | nil =>
    intro fv post e _ hf
    rcases hfv : fieldStep lk opts fv with ⟨v1, oe⟩
    rw [hfv] at hf
    cases hf
    simp [decodeStructFields, hfv]
  | cons x pre' ih =>
    intro fv post e hpre hf
    rcases hx : fieldStep lk opts x with ⟨v1, oe⟩
    have hxn : oe = none := by
      have hmem := hpre x (List.mem_cons_self x pre')
      rw [hx] at hmem
      exact hmem
    subst hxn
    have hrest := ih fv post e (fun y hy => hpre y (List.mem_cons_of_mem x hy)) hf
    have hrest2 : decodeStructFields lk opts (pre'.append (fv :: post))
        = (List.map (fun y => (fieldStep lk opts y).1) pre'
            ++ (fieldStep lk opts fv).1 :: List.map Prod.snd post, some e) := hrest
    simp only [List.cons_append, decodeStructFields, hx, hrest2, List.map_cons]

/-- Witness for C6: a three-field struct where the first field decodes,
the second is `required` with its key absent, and the third is never
reached. -/
theorem c6_witness :
    decodeStructFields (fun k => if k = "A" then some "x" else none) []
      [(⟨"A", some "A", .str, true⟩, .vstr "old"),
       (⟨"R", some "R,required", .str, true⟩, .vstr "keep"),
       (⟨"B", some "B", .int 0, true⟩, .vint 5)]
      = ([.vstr "x", .vstr "keep", .vint 5], some (.requirement "R" .str)) := by
  have h := c6_first_error_aborts_walk (fun k => if k = "A" then some "x" else none) []
    [(⟨"A", some "A", .str, true⟩, .vstr "old")]
    (⟨"R", some "R,required", .str, true⟩, .vstr "keep")
    [(⟨"B", some "B", .int 0, true⟩, .vint 5)]
    (.requirement "R" .str)
    (by
      intro x hx
      simp only [List.mem_singleton] at hx
      subst hx
      rfl)
    rfl
  exact h

theorem parseOptParts_bad_token (key : String) (f : GoField) :
    ∀ (good : List String) (p : String) (rest : List String) (t : TagOptions),
      (∀ g ∈ good, recognizedOpt g = true) → recognizedOpt p = false →
      parseOptParts key f (good ++ p :: rest) t
        = .error (.invalidTagOption key p f.ty (some f.name)) := by
  intro good
  induction good with
  | nil =>
    intro p rest t _ hp
    rw [recognizedOpt, Bool.or_eq_false_iff] at hp
    obtain ⟨hp1, hp2⟩ := hp
    have hpne : ¬ p = "required" := by simpa using hp1
    have hnone : cutSep p = none := by
      cases hc : cutSep p with
      | none => rfl
      | some sf => rw [hc] at hp2; simp at hp2
    simp [parseOptParts, hpne, hnone]
  | cons g good' ih =>
    intro p rest t hg hp
    have hgr := hg g (List.mem_cons_self g good')
    rw [recognizedOpt, Bool.or_eq_true] at hgr
    have htail : ∀ y ∈ good', recognizedOpt y = true :=
      fun y hy => hg y (List.mem_cons_of_mem g hy)
    by_cases hge : g = "required"
    · subst hge
      simp only [List.cons_append, parseOptParts, if_pos rfl]
      exact ih p rest _ htail hp
    · have hsome : (cutSep g).isSome = true := by
        rcases hgr with h | h
        · exact absurd (by simpa using h) hge
        · exact h
      obtain ⟨sf, hsf⟩ := Option.isSome_iff_exists.mp hsome
      simp only [List.cons_append, parseOptParts, if_neg hge, hsf]
      exact ih p rest _ htail hp

/-- C10: any option token after the key other than `required` or
`sep=<literal>` makes `readTag` fail with an `InvalidTagOptionError`
carrying that token, for every lookup source (whether or not the key is
present); the field's walk step then returns that error with the slot
untouched, so no value decoding proceeds. -/
theorem c10_unknown_option_fails :
    ∀ (lk : Lookup) (f : GoField) (opts : List (TagOptions → TagOptions))
      (tagStr key : String) (good : List String) (p : String) (rest : List String) (v : Val),
      f.tag = some tagStr →
      goSplit tagStr "," = key :: (good ++ p :: rest) →
      (∀ g ∈ good, recognizedOpt g = true) →
      recognizedOpt p = false →
      readTag lk f opts = .error (.invalidTagOption key p f.ty (some f.name))
      ∧ fieldStep lk opts (f, v) = (v, some (.invalidTagOption key p f.ty (some f.name))) := by
  intro lk f opts tagStr key good p rest v htag hsplit hgood hp
  have hrt : readTag lk f opts = .error (.invalidTagOption key p f.ty (some f.name)) := by
    simp only [readTag, htag, Option.getD_some, hsplit, List.headD_cons,
      List.drop_succ_cons, List.drop_zero]
    exact parseOptParts_bad_token key f good p rest _ hgood hp
  refine ⟨hrt, ?_⟩
  simp [fieldStep, hrt]

/-- Witness for C10: the tag `KEY,bogus` with the key present in the
lookup source. -/
theorem c10_witness :
    readTag (fun _ => some "present") ⟨"Field", some "KEY,bogus", .str, true⟩ []
        = .error (.invalidTagOption "KEY" "bogus" .str (some "Field"))
    ∧ fieldStep (fun _ => some "present") [] (⟨"Field", some "KEY,bogus", .str, true⟩, .vstr "")
        = (.vstr "", some (.invalidTagOption "KEY" "bogus" .str (some "Field"))) := by
  exact c10_unknown_option_fails (fun _ => some "present")
    ⟨"Field", some "KEY,bogus", .str, true⟩ [] "KEY,bogus" "KEY" [] "bogus" [] (.vstr "")
    rfl rfl (fun g hg => nomatch hg) rfl

theorem decodeElemsGo_spec (dec : String → Val × Option GoErr) :
    ∀ (entries : List String) (acc : List Val),
      decodeElemsGo dec entries acc
        = match (entries.map dec).findSome? (fun r => r.2) with
          | none => .ok (acc.reverse ++ (entries.map dec).map Prod.fst)
          | some e => .error e := by
  intro entries
  induction entries with
  | nil => intro acc; simp [decodeElemsGo]
  | cons s rest ih =>
    intro acc
    rcases hs : dec s with ⟨v, oe⟩
    cases oe with
    | some e =>
      simp [decodeElemsGo, hs, List.findSome?_cons]
    | none =>
      simp only [decodeElemsGo, hs]
      rw [ih (v :: acc)]
      simp only [List.map_cons, List.findSome?_cons, hs]
      cases hfs : (rest.map dec).findSome? (fun r => r.2) with
      | none => simp
      | some e => simp

/-- C8: decoding a sequence field with its key present splits the raw
string on the resolved separator, recursively decodes every substring
into the element type in order, and replaces the slot with the fresh
sequence; the first per-element failure aborts the whole decode, wrapped
as a parse error carrying the outer key, full raw value and sequence
type, with the slot unchanged.  The `sep=` tag token resolves the
separator used. -/
theorem c8_slice_decode :
    ∀ (tag : TagOptions) (name : String) (ety : Ty) (v : Val),
      tag.set = true →
      decodeValue tag name true (.slice ety) v = specSliceDecode tag name ety v
      ∧ (∀ lk : Lookup, ∃ t, readTag lk ⟨"Path", some "PATH,sep=;", .slice .str, true⟩ [] = .ok t
          ∧ t.sep = ";" ∧ t.key = "PATH") := by
  intro tag name ety v h
  constructor
  · obtain ⟨k, val, st, req, sp⟩ := tag
    cases h
    have hstep : decodeValue ⟨k, val, true, req, sp⟩ name true (.slice ety) v
        = (match decodeElemsGo
              (fun s => decodeValue ⟨k, s, true, req, sp⟩ name true ety (zeroVal ety))
              (goSplit val sp) [] with
           | .ok elems => (.vslice elems, none)
           | .error e => (v, some (.parseError k val (.slice ety) e))) := rfl
    rw [hstep, decodeElemsGo_spec]
    simp only [specSliceDecode]
    cases hfs : ((goSplit val sp).map
        (fun s => decodeValue ⟨k, s, true, req, sp⟩ name true ety (zeroVal ety))).findSome?
        (fun r => r.2) with
    | none => simp
    | some e => simp
  · intro lk
    exact ⟨_, rfl, rfl, rfl⟩

/-- Witness for C8: a string-sequence field with separator `;` decoding
`"a;b;c"` yields exactly `["a", "b", "c"]`. -/
theorem c8_witness :
    decodeValue ⟨"PATH", "a;b;c", true, false, ";"⟩ "Path" true (.slice .str) (.vslice [])
        = (.vslice [.vstr "a", .vstr "b", .vstr "c"], none)
    ∧ (∃ t, readTag (fun _ => none) ⟨"Path", some "PATH,sep=;", .slice .str, true⟩ [] = .ok t
        ∧ t.sep = ";" ∧ t.key = "PATH") := by
  have h := c8_slice_decode ⟨"PATH", "a;b;c", true, false, ";"⟩ "Path" .str (.vslice []) rfl
  exact ⟨h.1.trans rfl, h.2 (fun _ => none)⟩

/-- C3: when a custom (Unmarshaler-implementing) leaf type's hook
succeeds, `decodeValue` does not stop there: the kind dispatch still runs
the primitive integer parser on the same raw string, and that parser's
outcome determines the final value — overwriting the hook's result on
success, or turning the hook's success into a `ParseError` on failure
(in which case the hook's write to the slot is what remains). -/
theorem c3_custom_hook_falls_through :
    ∀ (tag : TagOptions) (name : String) (d : CustomDec) (v lv1 : Val),
      tag.set = true →
      runDec d tag.value v = (lv1, none) →
      decodeValue tag name true (.custom (some d) none) v
        = (match goParseInt tag.value 0 0 with
           | .ok n => (.vint n, none)
           | .error kErr => (lv1, some (.parseError tag.key tag.value (.custom (some d) none)
               (.base (.num "ParseInt" tag.value kErr))))) := by
  intro tag name d v lv1 h hrun
  obtain ⟨k, val, st, req, sp⟩ := tag
  cases h
  simp only at hrun
  simp only [decodeValue, tySize, decodeValueF, derefLeafTy, derefLeafVal, wrapPtrChain]
  rw [hrun]

/-- Witness for C3: with a hook that always writes 7, decoding `"42"`
ends with 42 (the hook's result overwritten by the integer parser), and
with a hook that accepts exactly `"abc"`, decoding `"abc"` ends in a
`ParseError` despite the hook's success, the slot keeping the hook's 7. -/
theorem c3_witness :
    decodeValue ⟨"K", "42", true, false, ","⟩ "C" true (.custom (some (.constDec 7)) none) (.vint 0)
        = (.vint 42, none)
    ∧ decodeValue ⟨"K", "abc", true, false, ","⟩ "C" true
        (.custom (some (.acceptOnly "abc" 7)) none) (.vint 0)
        = (.vint 7, some (.parseError "K" "abc" (.custom (some (.acceptOnly "abc" 7)) none)
            (.base (.num "ParseInt" "abc" .syntaxErr)))) := by
  constructor
  · exact (c3_custom_hook_falls_through ⟨"K", "42", true, false, ","⟩ "C" (.constDec 7)
      (.vint 0) (.vint 7) rfl rfl).trans rfl
  · exact (c3_custom_hook_falls_through ⟨"K", "abc", true, false, ","⟩ "C" (.acceptOnly "abc" 7)
      (.vint 0) (.vint 7) rfl rfl).trans rfl

theorem fullyAllocated_wrapPtrChain (ty : Ty) (x : Val) :
    fullyAllocated ty (wrapPtrChain ty x) = true := by
  induction ty <;> simp_all [fullyAllocated, wrapPtrChain]

theorem decodeValueF_set_allocated :
    ∀ (fuel : Nat) (tag : TagOptions) (name : String) (ty : Ty) (v : Val),
      tag.set = true →
      fullyAllocated ty (decodeValueF (fuel + 1) tag name true ty v).1 = true := by
  intro fuel tag name ty v h
  obtain ⟨k, val, st, req, sp⟩ := tag
  cases h
  simp only [decodeValueF]
  repeat' split
  all_goals simp [fullyAllocated_wrapPtrChain]

/-- C9: whenever the key is present, `decodeValue` dereferences through
all pointer layers, allocating a fresh zero value at each nil level, so
the resulting slot has every pointer level non-nil; in particular a
`***int` field decoding `"42"` ends with all three levels allocated and
the leaf equal to 42. -/
theorem c9_pointer_allocation :
    (∀ (tag : TagOptions) (name : String) (ty : Ty) (v : Val),
      tag.set = true →
      fullyAllocated ty (decodeValue tag name true ty v).1 = true)
    ∧ decodeValue ⟨"K", "42", true, false, ","⟩ "P" true (.ptr (.ptr (.ptr (.int 0)))) (.vptr none)
        = (.vptr (some (.vptr (some (.vptr (some (.vint 42)))))), none) := by
  constructor
  · intro tag name ty v h
    exact decodeValueF_set_allocated (tySize ty) tag name ty v h
  · rfl

/-- Witness for C9 at the `***int` field. -/
theorem c9_witness :
    fullyAllocated (.ptr (.ptr (.ptr (.int 0))))
      (decodeValue ⟨"K", "42", true, false, ","⟩ "P" true
        (.ptr (.ptr (.ptr (.int 0)))) (.vptr none)).1 = true :=
  c9_pointer_allocation.1 ⟨"K", "42", true, false, ","⟩ "P" _ (.vptr none) rfl

theorem findSome?_mem_isSome {α β : Type} (f : α → Option β) :
    ∀ (l : List α) (a : α), a ∈ l → (f a).isSome = true → (l.findSome? f).isSome = true := by
  intro l
  induction l with
  | nil => intro a ha; cases ha
  | cons x rest ih =>
    intro a ha hf
    rw [List.findSome?_cons]
    cases hx : f x with
    | some b => rfl
    | none =>
      rcases List.mem_cons.mp ha with rfl | hmem
      · rw [hx] at hf; simp at hf
      · exact ih a hmem hf

theorem parseTimeLoop_findSome? :
    ∀ (ls : List String) (value : String) (leaf : Val) (t : GoTime),
      ls.findSome? (fun l => goTimeParse l value) = some t →
      parseTimeLoop ls value leaf = (.vtime t, none) := by
  intro ls
  induction ls with
  | nil => intro value leaf t h; simp at h
  | cons x rest ih =>
    intro value leaf t h
    rw [List.findSome?_cons] at h
    cases hx : goTimeParse x value with
    | some t2 =>
      rw [hx] at h
      cases h
      cases rest with
      | nil => simp [parseTimeLoop, hx]
      | cons y ys => simp [parseTimeLoop, hx]
    | none =>
      rw [hx] at h
      cases rest with
      | nil => simp at h
      | cons y ys =>
        have hr := ih value leaf t h
        simp [parseTimeLoop, hx, hr]

/-- C4 counterexample: the claim "decoding succeeds iff some layout
parses the raw string" is false at the raw value
`"2021-01-01 00:00:00"`: the DateTime layout of `timeLayouts` parses it,
yet the decode fails with a `ParseError`, because `time.Time` implements
`encoding.TextUnmarshaler` (strict RFC 3339) and that hook runs — and
returns — before the layout list is ever consulted. -/
theorem c4_counterexample :
    (∃ l ∈ timeLayouts, (goTimeParse l "2021-01-01 00:00:00").isSome = true)
    ∧ (decodeValue ⟨"TIME", "2021-01-01 00:00:00", true, false, ","⟩ "Time" true .timeTy
        (zeroVal .timeTy)).2
        = some (.parseError "TIME" "2021-01-01 00:00:00" .timeTy
            (.base (.timeParse rfc3339 "2021-01-01 00:00:00"))) := by
  refine ⟨⟨"2006-01-02 15:04:05", ?_, rfl⟩, rfl⟩
  exact List.get?_mem (n := 15) rfl

/-- C4 (amended): `timeLayouts` is the fixed ordered list of 19 layouts.
When a timestamp field's key is present, the `time.Time` TextUnmarshaler
hook (strict RFC 3339) runs first: if it fails, decoding fails with a
`ParseError` without consulting the layouts, the field left zeroed (the
hook assigns its receiver even on error); if it succeeds, the 19 layouts
are tried in order and the first successful parse gives the final
value.  Decoding `"2021-01-01T00:00:00Z"` succeeds and yields
midnight UTC, January 1 2021: the 9 layouts before RFC 3339 all fail on
it and the RFC-3339 layout (position 10) parses it. -/
theorem c4_time_layouts_amended :
    timeLayouts.length = 19
    ∧ (∀ (tag : TagOptions) (name : String) (v : Val),
        tag.set = true →
        (goTimeParse rfc3339 tag.value = none →
          decodeValue tag name true .timeTy v
            = (zeroVal .timeTy, some (.parseError tag.key tag.value .timeTy
                (.base (.timeParse rfc3339 tag.value)))))
        ∧ (∀ t, goTimeParse rfc3339 tag.value = some t →
            ∃ t2, timeLayouts.findSome? (fun l => goTimeParse l tag.value) = some t2
              ∧ decodeValue tag name true .timeTy v = (.vtime t2, none)))
    ∧ ((timeLayouts.take 9).all (fun l => (goTimeParse l "2021-01-01T00:00:00Z").isNone) = true)
    ∧ timeLayouts.get? 9 = some rfc3339
    ∧ goTimeParse rfc3339 "2021-01-01T00:00:00Z"
        = some ⟨2021, 1, 1, 0, 0, 0, 0, 0⟩
    ∧ decodeValue ⟨"TIME", "2021-01-01T00:00:00Z", true, false, ","⟩ "Time" true .timeTy
        (zeroVal .timeTy)
        = (.vtime ⟨2021, 1, 1, 0, 0, 0, 0, 0⟩, none) := by
  refine ⟨rfl, ?_, rfl, rfl, rfl, rfl⟩
  intro tag name v h
  obtain ⟨k, val, st, req, sp⟩ := tag
  cases h
  constructor
  · intro hn
    simp only at hn
    simp only [decodeValue, tySize, decodeValueF, derefLeafTy, derefLeafVal, wrapPtrChain]
    rw [hn]
  · intro t ht
    simp only at ht
    have hs : (timeLayouts.findSome? (fun l => goTimeParse l val)).isSome = true := by
      apply findSome?_mem_isSome _ timeLayouts rfc3339
      · exact List.get?_mem (n := 9) rfl
      · rw [ht]; rfl
    obtain ⟨t2, ht2⟩ := Option.isSome_iff_exists.mp hs
    refine ⟨t2, ht2, ?_⟩
    simp only [decodeValue, tySize, decodeValueF, derefLeafTy, derefLeafVal, wrapPtrChain]
    rw [ht]
    dsimp only
    rw [parseTimeLoop_findSome? timeLayouts val (.vtime t) t2 ht2]

/-- Witness for C4 (amended) at the raw value `"2021-01-01T00:00:00Z"`. -/
theorem c4_witness :
    ∃ t2, timeLayouts.findSome? (fun l => goTimeParse l "2021-01-01T00:00:00Z") = some t2
      ∧ decodeValue ⟨"TIME", "2021-01-01T00:00:00Z", true, false, ","⟩ "Time" true .timeTy
          (zeroVal .timeTy) = (.vtime t2, none) :=
  (c4_time_layouts_amended.2.1 ⟨"TIME", "2021-01-01T00:00:00Z", true, false, ","⟩ "Time"
    (zeroVal .timeTy) rfl).2 ⟨2021, 1, 1, 0, 0, 0, 0, 0⟩ rfl

end GoEnv
